import Mathlib

/-!
# Verification of the Piano-MusicGeneration training pipeline

Shallow embedding of `src/train-network.py`: the event extractor
(`get_notes`) and the sequence encoder (`prepare_sequences`), together
with proofs of the specification's claims about them.

Conventions of the embedding:
* Python lists of tokens are `List String`.
* Machine floats introduced by numpy division are modelled as exact
  rationals (`ℚ`); the claims under scrutiny are about shapes, values
  being quotients `code / classCount`, and 0/1 entries, all of which
  are exact.
* A Python call that raises is modelled by `Option`/`Except` being
  `none`/`.error`.
-/

set_option maxRecDepth 100000

namespace TrainNetwork

/-! ## Sequence Encoder (`prepare_sequences`, lines 72-113)

The Python body fixes `sequence_length = 100` locally; the definitions
below take the window length `sequence_length` as an explicit argument
and the top-level `prepare_sequences` instantiates it at 100, exactly as
the source does. -/

/-- Lexicographic comparison of code-point sequences: the order Python
uses to compare strings in `sorted`. -/
def str_le_aux : List ℕ → List ℕ → Bool
  | [], _ => true
  | _ :: _, [] => false
  | a :: as, b :: bs =>
    if a < b then true else if b < a then false else str_le_aux as bs

/-- Python string comparison: lexicographic over the code points. -/
def str_le (s t : String) : Bool :=
  str_le_aux (s.data.map Char.toNat) (t.data.map Char.toNat)

/-- `pitch_names = sorted(set(note for note in notes))` (line 81):
the distinct tokens of the corpus in ascending lexicographic order.
(`set` dedups, `sorted` sorts; over distinct elements every correct sort
yields the same list, so a structurally recursive sort is used.) -/
def pitch_names (notes : List String) : List String :=
  List.insertionSort (fun a b => str_le a b = true) notes.dedup

/-- `pitch_to_int = dict((pitch, number) for number, pitch in enumerate(pitch_names))`
(line 84).  Since `pitch_names` has no duplicates, the dictionary maps a
pitch to its (first) index in `pitch_names`; lookup is `indexOf`. -/
def pitch_to_int (notes : List String) (pitch : String) : ℕ :=
  (pitch_names notes).indexOf pitch

/-- The loop of lines 96-99: for each `i` in
`range(0, len(notes) - sequence_length)`, the window
`notes[i : i+sequence_length]` mapped through `pitch_to_int`. -/
def input_sequences (sequence_length : ℕ) (notes : List String) : List (List ℕ) :=
  (List.range (notes.length - sequence_length)).map
    (fun i => ((notes.drop i).take sequence_length).map (pitch_to_int notes))

/-- The loop of lines 96-100: for each `i`, the code of
`notes[i + sequence_length]`.  The index is always in range inside the
loop, so the total `getD` with a dummy default is a faithful model. -/
def output_sequence (sequence_length : ℕ) (notes : List String) : List ℕ :=
  (List.range (notes.length - sequence_length)).map
    (fun i => pitch_to_int notes (notes.getD (i + sequence_length) ""))

/-- Lines 104-108: `numpy.reshape(input_sequences, (n, sequence_length, 1))`
followed by `input_sequences / float(num_pitch_classes)`.  Each scalar
code becomes the singleton innermost axis, divided by the caller-supplied
class count. -/
def input_tensor (sequence_length : ℕ) (notes : List String)
    (num_pitch_classes : ℕ) : List (List (List ℚ)) :=
  (input_sequences sequence_length notes).map
    (fun window => window.map
      (fun (code : ℕ) => [(code : ℚ) / (num_pitch_classes : ℚ)]))

/-- `keras.utils.to_categorical(y)` with no `num_classes` argument
(line 111).  Keras infers `num_classes = np.max(y) + 1`; `np.max` of an
empty array raises (`zero-size array to reduction operation maximum which
has no identity`), modelled by `none`.  Otherwise each class index `v`
becomes the one-hot row of width `np.max(y) + 1` with a single `1` at
position `v`. -/
def to_categorical (ys : List ℕ) : Option (List (List ℚ)) :=
  if ys.isEmpty then none
  else
    let num_classes := ys.foldr max 0 + 1
    some (ys.map (fun v => (List.range num_classes).map
      (fun j => if j = v then (1 : ℚ) else 0)))

/-- Line 111 applied to the computed targets. -/
def target_tensor (sequence_length : ℕ) (notes : List String) :
    Option (List (List ℚ)) :=
  to_categorical (output_sequence sequence_length notes)

/-- `prepare_sequences` with `sequence_length` exposed: builds the window
codes, reshapes and normalizes the inputs, one-hot encodes the targets,
and returns the pair (line 113); `none` when `to_categorical` raises. -/
def prepare_sequences_gen (sequence_length : ℕ) (notes : List String)
    (num_pitch_classes : ℕ) :
    Option (List (List (List ℚ)) × List (List ℚ)) :=
  (target_tensor sequence_length notes).map
    (fun targets => (input_tensor sequence_length notes num_pitch_classes, targets))

/-- `prepare_sequences(notes, num_pitch_classes)` as in the source, with
the local constant `sequence_length = 100` (line 78). -/
def prepare_sequences (notes : List String) (num_pitch_classes : ℕ) :
    Option (List (List (List ℚ)) × List (List ℚ)) :=
  prepare_sequences_gen 100 notes num_pitch_classes

/-- The body of `prepare_sequences` with the corpus threaded through as
mutable Python state: every statement of lines 78-113 only reads `notes`
(slicing copies, indexing reads, the comprehension reads), so the final
value of the `notes` binding is the first component. -/
def prepare_sequences_state (notes : List String) (num_pitch_classes : ℕ) :
    List String × Option (List (List (List ℚ)) × List (List ℚ)) :=
  let notes₁ := notes                                -- line 81 reads notes
  let notes₂ := notes₁                               -- lines 96-100 read notes
  (notes₂, prepare_sequences_gen 100 notes₂ num_pitch_classes)

/-! ## Event Extractor (`get_notes`, lines 31-69)

The collaborators are modelled abstractly, at the interface the spec
gives them:
* `music21.converter.parse` may raise: each file of the expanded glob is
  an `Except String Score` (the error message standing for the raised
  exception);
* a parsed `Score` exposes the attempt at instrument partitioning
  (`partitionByInstrument` + `parts[0].recurse()`), which may fail for
  any reason (`Except String`), and the whole-score flattened stream
  `flat.notes`;
* every element of a stream is a note (with a pitch string), a chord
  (with its normal-order pitch-class list), or some other structure. -/

/-- One element of a music21 event stream. -/
inductive MusicEvent where
  | note (pitch : String)
  | chord (normalOrder : List ℕ)
  | other
deriving DecidableEq

/-- A parsed score: the outcome of the `try` of lines 46-50 (instrument
partitioning, any failure cause recorded as a string), and the fallback
stream `parsed_midi.flat.notes` of line 53. -/
structure Score where
  partition : Except String (List MusicEvent)
  flatNotes : List MusicEvent

/-- Lines 56-62: a note contributes `str(structure.pitch)`, a chord
contributes `".".join(map(str, structure.normalOrder))`, anything else
is skipped. -/
def eventTokens : MusicEvent → List String
  | .note p => [p]
  | .chord ns => [String.intercalate "." (ns.map toString)]
  | .other => []

/-- Lines 46-62 for one successfully parsed file: use the first
instrument part when partitioning succeeds, otherwise (whatever the
failure) fall back to the flattened whole-score stream, then tokenize. -/
def fileNotes (s : Score) : List String :=
  (match s.partition with
   | .ok evs => evs
   | .error _ => s.flatNotes).flatMap eventTokens

/-- The loop of lines 42-62 over the expanded glob: concatenate each
file's tokens in order; a parse failure (line 44) is uncaught, so the
first failing file aborts the loop with that exception. -/
def extract_corpus : List (Except String Score) → Except String (List String)
  | [] => .ok []
  | .error e :: _ => .error e
  | .ok s :: rest => (extract_corpus rest).map (fun tl => fileNotes s ++ tl)

/-- `pickle.dump` of a list of strings, modelled as an explicit
length-prefixed byte-stream-like encoding (pickle's format is opaque;
what matters is exact round-trip, proved below). -/
def pickle_dump : List String → List (ℕ ⊕ Char)
  | [] => []
  | s :: rest => Sum.inl s.data.length :: (s.data.map Sum.inr ++ pickle_dump rest)

/-- `pickle.load` inverse of `pickle_dump`. -/
def pickle_load : List (ℕ ⊕ Char) → List String
  | [] => []
  | Sum.inl n :: rest =>
    String.mk ((rest.take n).filterMap
      (fun x => match x with | Sum.inr c => some c | Sum.inl _ => none))
      :: pickle_load (rest.drop n)
  | Sum.inr _ :: rest => pickle_load rest
termination_by l => l.length
decreasing_by
  · simp only [List.length_drop, List.length_cons]
    omega
  · simp [List.length_cons]

/-- The filesystem visible to `get_notes`: content (if any) at each
path. -/
def FS := String → Option (List (ℕ ⊕ Char))

/-- `get_notes(directory)` (lines 31-69) run against a filesystem:
the expanded glob is `files`; on success the corpus is pickled to the
fixed path `data/notes` (lines 66-67, mode `wb` overwrites) and the
corpus returned; an uncaught parse failure propagates, leaving the
filesystem untouched. -/
def get_notes (files : List (Except String Score)) (fs : FS) :
    FS × Except String (List String) :=
  match extract_corpus files with
  | .error e => (fs, .error e)
  | .ok notes =>
    (fun path => if path = "data/notes" then some (pickle_dump notes) else fs path,
     .ok notes)

/-- Concrete corpus: 101 copies of one token (used as a witness input). -/
def wA101 : List String := List.replicate 101 "A"

/-- Concrete corpus of length 101 whose first window contains the
highest-coded token (used for the C5 counterexample). -/
def wBA101 : List String := "B" :: List.replicate 100 "A"

/-- Concrete corpus of length 102 whose highest-coded token `"B"` never
occurs as a target (used for the C4 counterexample). -/
def wBA102 : List String := "B" :: List.replicate 101 "A"

/-- The spec's worked scenario corpus. -/
def scenarioCorpus : List String := ["C4", "D4", "E4", "C4"]

/-! ## General lemmas about the embedding -/

theorem str_le_aux_total (xs : List ℕ) :
    ∀ ys, str_le_aux xs ys = true ∨ str_le_aux ys xs = true := by
  induction xs with
  | nil => intro ys; left; rfl
  | cons a as ih =>
    intro ys
    cases ys with
    | nil => right; rfl
    | cons b bs =>
      by_cases hab : a < b
      · left; simp [str_le_aux, hab]
      · by_cases hba : b < a
        · right; simp [str_le_aux, hba]
        · have hba' : a = b := by omega
          subst hba'
          rcases ih bs with h | h
          · left; simp [str_le_aux, h]
          · right; simp [str_le_aux, h]

theorem str_le_aux_trans (xs : List ℕ) :
    ∀ ys zs, str_le_aux xs ys = true → str_le_aux ys zs = true →
      str_le_aux xs zs = true := by
  induction xs with
  | nil => intro ys zs _ _; rfl
  | cons a as ih =>
    intro ys zs h₁ h₂
    cases ys with
    | nil => simp [str_le_aux] at h₁
    | cons b bs =>
      cases zs with
      | nil => simp [str_le_aux] at h₂
      | cons c cs =>
        simp only [str_le_aux] at h₁ h₂ ⊢
        split_ifs at h₁ h₂ ⊢ <;>
          first
            | rfl
            | (exfalso; omega)
            | (exact ih bs cs h₁ h₂)

instance : IsTotal String (fun a b => str_le a b = true) :=
  ⟨fun a b => str_le_aux_total (a.data.map Char.toNat) (b.data.map Char.toNat)⟩

instance : IsTrans String (fun a b => str_le a b = true) :=
  ⟨fun a b c => str_le_aux_trans (a.data.map Char.toNat)
    (b.data.map Char.toNat) (c.data.map Char.toNat)⟩

theorem getD_map_range {α : Type} (n i : ℕ) (f : ℕ → α) (d : α) (h : i < n) :
    ((List.range n).map f).getD i d = f i := by
  simp [List.getD_eq_getElem?_getD, List.getElem?_map, List.getElem?_range, h]

theorem getD_take_drop (C : List String) (W i j : ℕ) (hj : j < W) :
    ((C.drop i).take W).getD j "" = C.getD (i + j) "" := by
  simp [List.getD_eq_getElem?_getD, List.getElem?_take, List.getElem?_drop, hj]

theorem pitch_names_nodup (notes : List String) : (pitch_names notes).Nodup :=
  ((List.perm_insertionSort _ notes.dedup).nodup_iff).mpr notes.nodup_dedup

theorem mem_pitch_names {notes : List String} {t : String} :
    t ∈ pitch_names notes ↔ t ∈ notes := by
  rw [pitch_names, List.mem_insertionSort, List.mem_dedup]

theorem pitch_to_int_lt {notes : List String} {t : String} (ht : t ∈ notes) :
    pitch_to_int notes t < (pitch_names notes).length :=
  List.indexOf_lt_length.mpr (mem_pitch_names.mpr ht)

theorem pitch_names_getD_spec (C : List String) (k : ℕ)
    (hk : k < (pitch_names C).length) :
    (pitch_names C).getD k "" ∈ C ∧
      pitch_to_int C ((pitch_names C).getD k "") = k := by
  have hg : (pitch_names C).getD k "" = (pitch_names C).get ⟨k, hk⟩ := by
    rw [List.getD_eq_getElem?_getD, List.getElem?_eq_getElem hk]
    rfl
  constructor
  · rw [hg, List.get_eq_getElem]
    exact mem_pitch_names.mp (List.getElem_mem hk)
  · rw [hg, List.get_eq_getElem, pitch_to_int]
    exact List.indexOf_getElem (pitch_names_nodup C) k hk

theorem getD_map {α β : Type} (l : List α) (f : α → β) (i : ℕ) (d : α) (d' : β)
    (h : i < l.length) : (l.map f).getD i d' = f (l.getD i d) := by
  rw [List.getD_eq_getElem?_getD, List.getD_eq_getElem?_getD, List.getElem?_map,
    List.getElem?_eq_getElem h]
  rfl

theorem getD_mem {α : Type} (l : List α) (i : ℕ) (d : α) (h : i < l.length) :
    l.getD i d ∈ l := by
  rw [List.getD_eq_getElem?_getD, List.getElem?_eq_getElem h]
  exact List.getElem_mem h

theorem input_sequences_length (C : List String) :
    (input_sequences 100 C).length = C.length - 100 := by
  simp [input_sequences]

theorem output_sequence_length (C : List String) :
    (output_sequence 100 C).length = C.length - 100 := by
  simp [output_sequence]

theorem input_window_length (C : List String) (i : ℕ)
    (hi : i < C.length - 100) :
    ((input_sequences 100 C).getD i []).length = 100 := by
  rw [input_sequences, getD_map_range _ _ _ _ hi]
  simp only [List.length_map, List.length_take, List.length_drop]
  omega

theorem input_entry (C : List String) (i j : ℕ)
    (hi : i < C.length - 100) (hj : j < 100) :
    ((input_sequences 100 C).getD i []).getD j 0
      = pitch_to_int C (C.getD (i + j) "") := by
  rw [input_sequences, getD_map_range _ _ _ _ hi]
  have hjlen' : j < ((C.drop i).take 100).length := by
    simp only [List.length_take, List.length_drop]
    omega
  rw [getD_map _ _ _ "" _ hjlen', getD_take_drop C 100 i j hj]

theorem output_entry (C : List String) (i : ℕ) (hi : i < C.length - 100) :
    (output_sequence 100 C).getD i 0 = pitch_to_int C (C.getD (i + 100) "") := by
  rw [output_sequence, getD_map_range _ _ _ _ hi]

theorem output_codes_lt (C : List String) (x : ℕ)
    (hx : x ∈ output_sequence 100 C) : x < (pitch_names C).length := by
  rw [output_sequence] at hx
  obtain ⟨i, hi, rfl⟩ := List.mem_map.mp hx
  rw [List.mem_range] at hi
  exact pitch_to_int_lt (getD_mem C (i + 100) "" (by omega))

theorem le_foldr_max (l : List ℕ) (x : ℕ) (hx : x ∈ l) : x ≤ l.foldr max 0 := by
  induction l with
  | nil => cases hx
  | cons a as ih =>
    rcases List.mem_cons.mp hx with h | h
    · subst h; exact le_max_left _ _
    · exact le_trans (ih h) (le_max_right _ _)

theorem foldr_max_lt (l : List ℕ) (V : ℕ) (hV : 0 < V)
    (h : ∀ x ∈ l, x < V) : l.foldr max 0 < V := by
  induction l with
  | nil => simpa using hV
  | cons a as ih =>
    exact max_lt (h a (List.mem_cons_self a as))
      (ih (fun x hx => h x (List.mem_cons_of_mem a hx)))

theorem onehot_sum_zero (v : ℕ) (l : List ℕ) (hv : v ∉ l) :
    (l.map (fun j => if j = v then (1 : ℚ) else 0)).sum = 0 := by
  induction l with
  | nil => rfl
  | cons a as ih =>
    have h1 : ¬(a = v) := fun h => hv (h ▸ List.mem_cons_self a as)
    have h2 : v ∉ as := fun h => hv (List.mem_cons_of_mem a h)
    rw [List.map_cons, List.sum_cons, if_neg h1, ih h2, zero_add]

theorem onehot_sum (w v : ℕ) (hv : v < w) :
    ((List.range w).map (fun j => if j = v then (1 : ℚ) else 0)).sum = 1 := by
  induction w with
  | zero => omega
  | succ w ih =>
    rw [List.range_succ, List.map_append, List.sum_append]
    by_cases h : v = w
    · subst h
      rw [onehot_sum_zero v (List.range v) (by simp)]
      simp
    · have hv' : v < w := by omega
      rw [ih hv']
      simp [h]
      omega

theorem onehot_count_zero (v : ℕ) (l : List ℕ) (hv : v ∉ l) :
    (l.map (fun j => if j = v then (1 : ℚ) else 0)).count 1 = 0 := by
  induction l with
  | nil => rfl
  | cons a as ih =>
    have h1 : ¬(a = v) := fun h => hv (h ▸ List.mem_cons_self a as)
    have h2 : v ∉ as := fun h => hv (List.mem_cons_of_mem a h)
    simp [List.count_cons, h1, ih h2]

theorem onehot_count (w v : ℕ) (hv : v < w) :
    ((List.range w).map (fun j => if j = v then (1 : ℚ) else 0)).count 1 = 1 := by
  induction w with
  | zero => omega
  | succ w ih =>
    rw [List.range_succ, List.map_append, List.count_append]
    by_cases h : v = w
    · subst h
      rw [onehot_count_zero v (List.range v) (by simp)]
      simp
    · have hv' : v < w := by omega
      rw [ih hv']
      simp [List.count_cons, h]
      omega

theorem input_tensor_cell (C : List String) (cc i j : ℕ)
    (hi : i < C.length - 100) (hj : j < 100) :
    ((input_tensor 100 C cc).getD i []).getD j []
      = [(pitch_to_int C (C.getD (i + j) "") : ℚ) / (cc : ℚ)] := by
  have hilen : i < (input_sequences 100 C).length := by
    rw [input_sequences_length C]
    exact hi
  have hjlen : j < ((input_sequences 100 C).getD i []).length := by
    rw [input_window_length C i hi]
    exact hj
  rw [input_tensor, getD_map _ _ _ [] _ hilen,
    getD_map _ _ _ 0 _ hjlen, input_entry C i j hi hj]

theorem target_tensor_eq (C : List String) (hC : 100 < C.length) :
    target_tensor 100 C = some ((output_sequence 100 C).map
      (fun v => (List.range ((output_sequence 100 C).foldr max 0 + 1)).map
        (fun j => if j = v then (1 : ℚ) else 0))) := by
  have hlen0 : (output_sequence 100 C).length = C.length - 100 :=
    output_sequence_length C
  have hne : output_sequence 100 C ≠ [] := by
    intro h
    rw [h] at hlen0
    simp at hlen0
    omega
  rw [target_tensor, to_categorical,
    if_neg (by simpa [List.isEmpty_iff] using hne)]

theorem filterMap_inr (l : List Char) :
    ((l.map (Sum.inr : Char → ℕ ⊕ Char)).filterMap
      (fun x => match x with | Sum.inr c => some c | Sum.inl _ => none)) = l := by
  induction l with
  | nil => rfl
  | cons c cs ih => simp only [List.map_cons, List.filterMap_cons, ih]

theorem pickle_roundtrip (l : List String) : pickle_load (pickle_dump l) = l := by
  induction l with
  | nil => simp [pickle_dump, pickle_load]
  | cons s rest ih =>
    rw [pickle_dump]
    simp only [pickle_load]
    have hlen : s.data.length = (s.data.map (Sum.inr : Char → ℕ ⊕ Char)).length :=
      (List.length_map _ _).symm
    rw [hlen, List.take_left, List.drop_left, filterMap_inr, ih]

theorem extract_corpus_error_of_mem (files : List (Except String Score))
    (k : ℕ) (e : String) (hk : k < files.length)
    (he : files.getD k (.ok ⟨.ok [], []⟩) = .error e) :
    ∃ e2, extract_corpus files = .error e2 := by
  induction files generalizing k with
  | nil => simp at hk
  | cons f rest ih =>
    cases f with
    | error e0 => exact ⟨e0, rfl⟩
    | ok s =>
      cases k with
      | zero => exact Except.noConfusion he
      | succ k2 =>
        have hk2 : k2 < rest.length := by simpa using hk
        obtain ⟨e2, h2⟩ := ih k2 hk2 he
        refine ⟨e2, ?_⟩
        simp only [extract_corpus, h2]
        rfl

/-! ## Claims -/

/-- **C1**: with window length `W = 100` and `len(C) > 100`,
`prepare_sequences` builds exactly `len(C) - 100` training examples;
example `i`'s input window is the vocabulary encoding of
`C[i..i+99]` in order (entry `j` is the code of `C[i+j]`) and its
target is the code of `C[i+100]`. -/
theorem C1_window_examples (C : List String) (i j : ℕ)
    (hC : 100 < C.length) (hi : i < C.length - 100) (hj : j < 100) :
    (input_sequences 100 C).length = C.length - 100 ∧
    (output_sequence 100 C).length = C.length - 100 ∧
    ((input_sequences 100 C).getD i []).getD j 0
      = pitch_to_int C (C.getD (i + j) "") ∧
    (output_sequence 100 C).getD i 0 = pitch_to_int C (C.getD (i + 100) "") :=
  ⟨input_sequences_length C, output_sequence_length C,
    input_entry C i j hi hj, output_entry C i hi⟩

/-- Closed instance of `C1_window_examples` on a concrete corpus of
length 101. -/
theorem C1_window_examples_witness :
    (100 < wA101.length ∧ 0 < wA101.length - 100 ∧ 0 < 100) ∧
    ((input_sequences 100 wA101).length = wA101.length - 100 ∧
     (output_sequence 100 wA101).length = wA101.length - 100 ∧
     ((input_sequences 100 wA101).getD 0 []).getD 0 0
       = pitch_to_int wA101 (wA101.getD (0 + 0) "") ∧
     (output_sequence 100 wA101).getD 0 0
       = pitch_to_int wA101 (wA101.getD (0 + 100) "")) :=
  ⟨⟨by decide, by decide, by decide⟩,
    C1_window_examples wA101 0 0 (by decide) (by decide) (by decide)⟩

/-- **C2**: the vocabulary built by `prepare_sequences` is a bijection
from the distinct tokens of `C`, sorted lexicographically, onto the
dense codes `0..V-1`: `pitch_names` is sorted and duplicate-free, its
length is the number of distinct tokens, membership is exactly
occurrence in `C`, distinct tokens get distinct codes below `V`, and
every code below `V` is hit by a token of `C`. -/
theorem C2_vocabulary_bijection (C : List String) (t a b : String) (k : ℕ)
    (ha : a ∈ C) (hb : b ∈ C) (hab : a ≠ b)
    (hk : k < (pitch_names C).length) :
    (pitch_names C).Sorted (fun x y => str_le x y = true) ∧
    (pitch_names C).Nodup ∧
    (pitch_names C).length = C.dedup.length ∧
    (t ∈ pitch_names C ↔ t ∈ C) ∧
    pitch_to_int C a ≠ pitch_to_int C b ∧
    pitch_to_int C a < (pitch_names C).length ∧
    ((pitch_names C).getD k "" ∈ C ∧
      pitch_to_int C ((pitch_names C).getD k "") = k) := by
  refine ⟨List.sorted_insertionSort _ _, pitch_names_nodup C,
    (List.perm_insertionSort _ C.dedup).length_eq, mem_pitch_names, ?_, ?_, ?_, ?_⟩
  · intro h
    exact hab ((List.indexOf_inj (mem_pitch_names.mpr ha)
      (mem_pitch_names.mpr hb)).mp h)
  · exact pitch_to_int_lt ha
  · exact (pitch_names_getD_spec C k hk).1
  · exact (pitch_names_getD_spec C k hk).2

/-- Closed instance of `C2_vocabulary_bijection` on a concrete corpus. -/
theorem C2_vocabulary_bijection_witness :
    ("b" ∈ ["b", "a", "b"] ∧ "a" ∈ ["b", "a", "b"] ∧ "b" ≠ "a" ∧
      1 < (pitch_names ["b", "a", "b"]).length) ∧
    ((pitch_names ["b", "a", "b"]).Sorted (fun x y => str_le x y = true) ∧
     (pitch_names ["b", "a", "b"]).Nodup ∧
     (pitch_names ["b", "a", "b"]).length = (["b", "a", "b"].dedup).length ∧
     ("a" ∈ pitch_names ["b", "a", "b"] ↔ "a" ∈ ["b", "a", "b"]) ∧
     pitch_to_int ["b", "a", "b"] "b" ≠ pitch_to_int ["b", "a", "b"] "a" ∧
     pitch_to_int ["b", "a", "b"] "b" < (pitch_names ["b", "a", "b"]).length ∧
     ((pitch_names ["b", "a", "b"]).getD 1 "" ∈ ["b", "a", "b"] ∧
       pitch_to_int ["b", "a", "b"] ((pitch_names ["b", "a", "b"]).getD 1 "") = 1)) :=
  ⟨⟨by decide, by decide, by decide, by decide⟩,
    C2_vocabulary_bijection ["b", "a", "b"] "a" "b" "a" 1
      (by decide) (by decide) (by decide) (by decide)⟩

/-- **C3** (the code contradicts this claim): for `len(C) ≤ 100` the
window loop indeed produces zero examples, but `prepare_sequences` does
not return well-formed empty tensors: line 111 unconditionally calls
`to_categorical` on the empty target list, which raises
(`np.max` of a zero-size array has no identity), modelled by `none`. -/
theorem C3_short_corpus_raises (C : List String) (num_pitch_classes : ℕ)
    (h : C.length ≤ 100) :
    input_sequences 100 C = [] ∧ output_sequence 100 C = [] ∧
    prepare_sequences C num_pitch_classes = none := by
  have h0 : C.length - 100 = 0 := by omega
  refine ⟨?_, ?_, ?_⟩ <;>
    simp [input_sequences, output_sequence, prepare_sequences,
      prepare_sequences_gen, target_tensor, to_categorical, h0]

/-- Closed instance of `C3_short_corpus_raises` at the empty corpus. -/
theorem C3_short_corpus_raises_witness :
    (List.length ([] : List String) ≤ 100) ∧
    (input_sequences 100 [] = [] ∧ output_sequence 100 [] = [] ∧
      prepare_sequences [] 5 = none) :=
  ⟨by decide, C3_short_corpus_raises [] 5 (by decide)⟩

/-- **C8**: the spec's worked scenario: on `["C4","D4","E4","C4"]` with
window length 2 the encoder yields the sorted vocabulary
`{C4 ↦ 0, D4 ↦ 1, E4 ↦ 2}`, exactly the examples `([0,1] → 2)` and
`([1,2] → 0)`, an input tensor of shape `(2,2,1)` and a target tensor
of shape `(2,3)`. -/
theorem C8_scenario :
    pitch_names scenarioCorpus = ["C4", "D4", "E4"] ∧
    pitch_to_int scenarioCorpus "C4" = 0 ∧
    pitch_to_int scenarioCorpus "D4" = 1 ∧
    pitch_to_int scenarioCorpus "E4" = 2 ∧
    input_sequences 2 scenarioCorpus = [[0, 1], [1, 2]] ∧
    output_sequence 2 scenarioCorpus = [2, 0] ∧
    (input_tensor 2 scenarioCorpus 3).map (fun w => w.map List.length)
      = [[1, 1], [1, 1]] ∧
    target_tensor 2 scenarioCorpus = some [[0, 0, 1], [1, 0, 0]] := by
  refine ⟨by decide, by decide, by decide, by decide, by decide, by decide,
    by decide, by decide⟩

/-- The corrected **C4**: for `len(C) > 100` the target tensor exists and
is a matrix of one-hot rows in example order, but its width is
`max(target codes) + 1` — the widest value seen among the targets (never
exceeding the vocabulary size `V`), not `V` itself: row `i` has that
width, sums to exactly 1, has exactly one entry equal to 1, and its
`j`-th entry is 1 precisely at the code of example `i`'s target. -/
theorem C4_target_tensor_onehot (C : List String) (i j : ℕ)
    (hC : 100 < C.length) (hi : i < C.length - 100)
    (hj : j < (output_sequence 100 C).foldr max 0 + 1) :
    (target_tensor 100 C).isSome = true ∧
    ((target_tensor 100 C).getD []).length = C.length - 100 ∧
    (((target_tensor 100 C).getD []).getD i []).length
      = (output_sequence 100 C).foldr max 0 + 1 ∧
    (output_sequence 100 C).foldr max 0 + 1 ≤ (pitch_names C).length ∧
    (((target_tensor 100 C).getD []).getD i []).sum = 1 ∧
    (((target_tensor 100 C).getD []).getD i []).count 1 = 1 ∧
    (((target_tensor 100 C).getD []).getD i []).getD j 0
      = (if j = (output_sequence 100 C).getD i 0 then 1 else 0) := by
  have htc := target_tensor_eq C hC
  have hilen : i < (output_sequence 100 C).length := by
    rw [output_sequence_length C]
    exact hi
  have hv : (output_sequence 100 C).getD i 0 ∈ output_sequence 100 C :=
    getD_mem _ i 0 hilen
  have hvw : (output_sequence 100 C).getD i 0
      < (output_sequence 100 C).foldr max 0 + 1 :=
    Nat.lt_succ_of_le (le_foldr_max _ _ hv)
  have hrow : ((target_tensor 100 C).getD []).getD i []
      = (List.range ((output_sequence 100 C).foldr max 0 + 1)).map
        (fun j => if j = (output_sequence 100 C).getD i 0 then (1 : ℚ) else 0) := by
    rw [htc, Option.getD_some, getD_map _ _ _ 0 _ hilen]
  have hV0 : 0 < (pitch_names C).length := by
    have : C.getD 0 "" ∈ C := getD_mem C 0 "" (by omega)
    exact lt_of_le_of_lt (Nat.zero_le _) (pitch_to_int_lt this)
  refine ⟨by rw [htc]; rfl, ?_, ?_, ?_, ?_, ?_, ?_⟩
  · rw [htc, Option.getD_some, List.length_map, output_sequence_length C]
  · rw [hrow, List.length_map, List.length_range]
  · exact Nat.succ_le_of_lt (foldr_max_lt _ _ hV0 (output_codes_lt C))
  · rw [hrow]
    exact onehot_sum _ _ hvw
  · rw [hrow]
    exact onehot_count _ _ hvw
  · rw [hrow, getD_map_range _ _ _ _ hj]

/-- Closed instance of `C4_target_tensor_onehot` on a concrete corpus of
length 101 (one example, inferred width 1). -/
theorem C4_target_tensor_onehot_witness :
    (100 < wA101.length ∧ 0 < wA101.length - 100 ∧
      0 < (output_sequence 100 wA101).foldr max 0 + 1) ∧
    ((target_tensor 100 wA101).isSome = true ∧
     ((target_tensor 100 wA101).getD []).length = wA101.length - 100 ∧
     (((target_tensor 100 wA101).getD []).getD 0 []).length
       = (output_sequence 100 wA101).foldr max 0 + 1 ∧
     (output_sequence 100 wA101).foldr max 0 + 1
       ≤ (pitch_names wA101).length ∧
     (((target_tensor 100 wA101).getD []).getD 0 []).sum = 1 ∧
     (((target_tensor 100 wA101).getD []).getD 0 []).count 1 = 1 ∧
     (((target_tensor 100 wA101).getD []).getD 0 []).getD 0 0
       = (if 0 = (output_sequence 100 wA101).getD 0 0 then 1 else 0)) :=
  ⟨⟨by decide, by decide, by decide⟩,
    C4_target_tensor_onehot wA101 0 0 (by decide) (by decide) (by decide)⟩

/-- **C4 as stated is false**: on the corpus `"B" :: 101 × "A"` (length
102, vocabulary size `V = 2`) the token `"B"` never occurs as a target,
so both rows of the returned target tensor have width 1, not `V`. -/
theorem C4_width_counterexample :
    100 < wBA102.length ∧
    (pitch_names wBA102).length = 2 ∧
    ((target_tensor 100 wBA102).getD []).map List.length = [1, 1] := by
  refine ⟨by decide, by decide, by decide⟩

/-- The corrected **C5**: for `len(C) > 100` the input tensor has shape
`(num_examples, 100, 1)` and each entry is the corresponding vocabulary
code divided by the caller-supplied `classCount` (not the locally
computed vocabulary size); when the caller passes a consistent count —
`0 < classCount` and `V ≤ classCount` — every entry lies in
`[0, (classCount-1)/classCount]`.  (Without `V ≤ classCount` the upper
bound fails, see the counterexample.) -/
theorem C5_input_tensor_normalized (C : List String) (cc i j : ℕ)
    (hC : 100 < C.length) (hcc0 : 0 < cc)
    (hccV : (pitch_names C).length ≤ cc)
    (hi : i < C.length - 100) (hj : j < 100) :
    (input_tensor 100 C cc).length = C.length - 100 ∧
    ((input_tensor 100 C cc).getD i []).length = 100 ∧
    (((input_tensor 100 C cc).getD i []).getD j []).length = 1 ∧
    (((input_tensor 100 C cc).getD i []).getD j []).getD 0 0
      = (pitch_to_int C (C.getD (i + j) "") : ℚ) / (cc : ℚ) ∧
    0 ≤ (((input_tensor 100 C cc).getD i []).getD j []).getD 0 0 ∧
    (((input_tensor 100 C cc).getD i []).getD j []).getD 0 0
      ≤ ((cc : ℚ) - 1) / (cc : ℚ) := by
  have hilen : i < (input_sequences 100 C).length := by
    rw [input_sequences_length C]
    exact hi
  have hcell := input_tensor_cell C cc i j hi hj
  have hcodeV : pitch_to_int C (C.getD (i + j) "") < (pitch_names C).length :=
    pitch_to_int_lt (getD_mem C (i + j) "" (by omega))
  have hccq : (0 : ℚ) < (cc : ℚ) := by exact_mod_cast hcc0
  refine ⟨?_, ?_, ?_, ?_, ?_, ?_⟩
  · rw [input_tensor, List.length_map, input_sequences_length C]
  · rw [input_tensor, getD_map _ _ _ [] _ hilen, List.length_map,
      input_window_length C i hi]
  · rw [hcell]
    rfl
  · rw [hcell]
    rfl
  · rw [hcell]
    show (0 : ℚ) ≤ _ / _
    exact div_nonneg (by positivity) (le_of_lt hccq)
  · rw [hcell]
    show _ / _ ≤ ((cc : ℚ) - 1) / (cc : ℚ)
    refine (div_le_div_iff_of_pos_right hccq).mpr ?_
    have hle : pitch_to_int C (C.getD (i + j) "") + 1 ≤ cc := by omega
    have hcast : (pitch_to_int C (C.getD (i + j) "") : ℚ) + 1 ≤ (cc : ℚ) := by
      exact_mod_cast hle
    linarith

/-- Closed instance of `C5_input_tensor_normalized` on a concrete corpus
of length 101 with `classCount = V = 1`. -/
theorem C5_input_tensor_normalized_witness :
    (100 < wA101.length ∧ 0 < 1 ∧ (pitch_names wA101).length ≤ 1 ∧
      0 < wA101.length - 100 ∧ 0 < 100) ∧
    ((input_tensor 100 wA101 1).length = wA101.length - 100 ∧
     ((input_tensor 100 wA101 1).getD 0 []).length = 100 ∧
     (((input_tensor 100 wA101 1).getD 0 []).getD 0 []).length = 1 ∧
     (((input_tensor 100 wA101 1).getD 0 []).getD 0 []).getD 0 0
       = (pitch_to_int wA101 (wA101.getD (0 + 0) "") : ℚ) / ((1 : ℕ) : ℚ) ∧
     0 ≤ (((input_tensor 100 wA101 1).getD 0 []).getD 0 []).getD 0 0 ∧
     (((input_tensor 100 wA101 1).getD 0 []).getD 0 []).getD 0 0
       ≤ (((1 : ℕ) : ℚ) - 1) / ((1 : ℕ) : ℚ)) :=
  ⟨⟨by decide, by decide, by decide, by decide, by decide⟩,
    C5_input_tensor_normalized wA101 1 0 0 (by decide) (by decide) (by decide)
      (by decide) (by decide)⟩

/-- **C5 as stated is false** for an inconsistent caller-supplied class
count: on the corpus `"B" :: 100 × "A"` (length 101, `V = 2`) with
`classCount = 1`, entry `(0,0,0)` of the input tensor is `1`, outside
`[0, (classCount-1)/classCount] = [0, 0]`. -/
theorem C5_normalization_counterexample :
    100 < wBA101.length ∧
    (((input_tensor 100 wBA101 1).getD 0 []).getD 0 []).getD 0 0 = 1 ∧
    ¬((((input_tensor 100 wBA101 1).getD 0 []).getD 0 []).getD 0 0
        ≤ (((1 : ℕ) : ℚ) - 1) / ((1 : ℕ) : ℚ)) := by
  have h := input_tensor_cell wBA101 1 0 0 (by decide) (by decide)
  rw [show wBA101.getD (0 + 0) "" = "B" from rfl,
    show pitch_to_int wBA101 "B" = 1 from by decide] at h
  refine ⟨by decide, ?_, ?_⟩
  · rw [h]
    norm_num
  · rw [h]
    norm_num

/-- **C9**: `prepare_sequences` only reads its input corpus: threading
the `notes` binding through every statement of the body leaves it
element-for-element identical, and the result is the same as the pure
function of the initial corpus. -/
theorem C9_corpus_unmodified (notes : List String) (num_pitch_classes : ℕ) :
    (prepare_sequences_state notes num_pitch_classes).1 = notes ∧
    (prepare_sequences_state notes num_pitch_classes).2
      = prepare_sequences notes num_pitch_classes :=
  ⟨rfl, rfl⟩

/-- **C6**: an individual file's parse failure is not caught: it aborts
the whole run (`get_notes` yields no corpus) and nothing is persisted
(the filesystem is unchanged); whereas a failure during instrument
partitioning of a parsed score — whatever the cause — is recovered
locally by falling back to the whole-score flattened note stream. -/
theorem C6_failure_semantics (files : List (Except String Score)) (fs : FS)
    (k : ℕ) (e cause : String) (s : Score)
    (hk : k < files.length)
    (he : files.getD k (.ok ⟨.ok [], []⟩) = .error e)
    (hs : s.partition = .error cause) :
    (get_notes files fs).2.isOk = false ∧
    (get_notes files fs).1 = fs ∧
    fileNotes s = s.flatNotes.flatMap eventTokens := by
  obtain ⟨e2, h2⟩ := extract_corpus_error_of_mem files k e hk he
  refine ⟨?_, ?_, ?_⟩
  · simp only [get_notes, h2]
    rfl
  · simp only [get_notes, h2]
  · rw [fileNotes, hs]

/-- Closed instance of `C6_failure_semantics`: one unparsable file, and
a score whose partitioning fails. -/
theorem C6_failure_semantics_witness :
    (0 < [(Except.error "parse failure" : Except String Score)].length ∧
     [(Except.error "parse failure" : Except String Score)].getD 0 (.ok ⟨.ok [], []⟩)
       = .error "parse failure" ∧
     (Score.mk (.error "no parts") [.note "C4", .other]).partition
       = .error "no parts") ∧
    ((get_notes [.error "parse failure"] (fun _ => none)).2.isOk = false ∧
     (get_notes [.error "parse failure"] (fun _ => none)).1 = (fun _ => none) ∧
     fileNotes (Score.mk (.error "no parts") [.note "C4", .other])
       = (Score.mk (.error "no parts") [.note "C4", .other]).flatNotes.flatMap
           eventTokens) :=
  ⟨⟨by decide, rfl, rfl⟩,
    C6_failure_semantics [.error "parse failure"] (fun _ => none) 0
      "parse failure" "no parts" (Score.mk (.error "no parts") [.note "C4", .other])
      (by decide) rfl rfl⟩

/-- **C7**: when every file parses, `get_notes` persists the full
ordered corpus at the fixed path `data/notes` in serialized form —
overwriting whatever any prior filesystem held there — returns that same
list, and deserializing the persisted artifact yields a token sequence
identical to the returned corpus. -/
theorem C7_persist_roundtrip (files : List (Except String Score)) (fs : FS)
    (notes : List String) (h : extract_corpus files = .ok notes) :
    (get_notes files fs).2 = .ok notes ∧
    (get_notes files fs).1 "data/notes" = some (pickle_dump notes) ∧
    pickle_load (pickle_dump notes) = notes := by
  refine ⟨?_, ?_, pickle_roundtrip notes⟩
  · simp only [get_notes, h]
  · simp only [get_notes, h]
    rfl

/-- Closed instance of `C7_persist_roundtrip`: two files (one using the
partition fallback), a filesystem with prior content at `data/notes`. -/
theorem C7_persist_roundtrip_witness :
    extract_corpus
        [.ok (Score.mk (.ok [.note "C4", .chord [0, 4, 7]]) []),
         .ok (Score.mk (.error "mono") [.other, .note "E4"])]
      = .ok ["C4", "0.4.7", "E4"] ∧
    ((get_notes
        [.ok (Score.mk (.ok [.note "C4", .chord [0, 4, 7]]) []),
         .ok (Score.mk (.error "mono") [.other, .note "E4"])]
        (fun _ => some (pickle_dump ["stale"]))).2 = .ok ["C4", "0.4.7", "E4"] ∧
     (get_notes
        [.ok (Score.mk (.ok [.note "C4", .chord [0, 4, 7]]) []),
         .ok (Score.mk (.error "mono") [.other, .note "E4"])]
        (fun _ => some (pickle_dump ["stale"]))).1 "data/notes"
       = some (pickle_dump ["C4", "0.4.7", "E4"]) ∧
     pickle_load (pickle_dump ["C4", "0.4.7", "E4"]) = ["C4", "0.4.7", "E4"]) :=
  ⟨rfl,
    C7_persist_roundtrip
      [.ok (Score.mk (.ok [.note "C4", .chord [0, 4, 7]]) []),
       .ok (Score.mk (.error "mono") [.other, .note "E4"])]
      (fun _ => some (pickle_dump ["stale"])) ["C4", "0.4.7", "E4"] rfl⟩

/-- **C10**: when the glob matches zero files, `get_notes` does not
raise: it returns the empty corpus and still writes the artifact to
`data/notes`, overwriting whatever any prior filesystem held there. -/
theorem C10_empty_glob (fs : FS) :
    (get_notes [] fs).2 = .ok [] ∧
    (get_notes [] fs).1 "data/notes" = some (pickle_dump []) ∧
    pickle_load (pickle_dump []) = [] :=
  ⟨rfl, rfl, pickle_roundtrip []⟩

end TrainNetwork
